import Mathlib

/-!
Shallow embedding of the batching pipeline of the pointer-generator
repository (`src/batcher.py`) and of the two tensor index utilities
(`src/test.py`).

Conventions of the embedding:
* a token is a string; a line of an input file is modelled as the list of
  tokens it contains after `nlc_data.remove_nonascii` tokenization (the
  `nlc_data` module is not under src/; per the spec the files are plain
  text, one tokenized example per line, tokens space-separated, so a
  physical line is a possibly empty token list, and end-of-file is the end
  of the list of lines — `readline` returning a falsy value);
* numpy int32 arrays hold small nonnegative ids here, modelled as `Nat`
  rows; the float32 values moved (never combined arithmetically) by the
  tensor utilities are modelled as `ℚ`;
* Python code that raises is modelled with `Option`/`Except`: `none` or
  `Except.error` marks an unhandled exception.
-/

namespace PG

abbrev Token := String

abbrev Line := List Token

/-- Modelled from the spec: the external `Vocabulary` collaborator of the
`data` module (not under src/): a vocabulary mapping tokens to integer IDs
with reserved PAD/start/stop/unknown tokens.  `word2id` maps a token to its
id, out-of-vocabulary tokens to the UNK id `unk_id`; `size` is the fixed
vocabulary size. -/
structure Vocab where
  word2id : Token → Nat
  unk_id : Nat
  size : Nat

/-- Modelled from the spec: the reserved start-of-sequence sentinel token
(`nlc_data._SOS`; `nlc_data` is not under src/).  Its concrete spelling is
irrelevant: the code only ever passes it through `vocab.word2id`. -/
def SOS : Token := "<sos>"

/-- Modelled from the spec: the reserved stop sentinel token (`nlc_data._EOS`). -/
def EOS : Token := "<eos>"

/-- Modelled from the spec: the reserved padding token (`data._PAD`). -/
def PAD : Token := "<pad>"

/-- Modelled from the spec: one step of `data.article2ids` (the `data`
module is not under src/).  Per the spec, "article-local OOV tokens receive
temporary IDs beyond the fixed vocabulary size": an in-vocabulary token
keeps its id; an OOV token is appended to the article's OOV list on first
occurrence and gets id `size + (its index in that list)`. -/
def article2idsStep (v : Vocab) (acc : List Nat × List Token) (w : Token) :
    List Nat × List Token :=
  let i := v.word2id w
  if i = v.unk_id then
    let oovs := if acc.2.contains w then acc.2 else acc.2 ++ [w]
    (acc.1 ++ [v.size + oovs.indexOf w], oovs)
  else
    (acc.1 ++ [i], acc.2)

/-- Modelled from the spec: `data.article2ids` — maps the (truncated)
article tokens to ids where in-article OOVs get temporary extended-vocabulary
ids, and returns the list of in-article OOV tokens in order of first
occurrence. -/
def article2ids (v : Vocab) (words : List Token) : List Nat × List Token :=
  words.foldl (article2idsStep v) ([], [])

/-- Modelled from the spec: `data.abstract2ids` — maps abstract tokens to
ids where an OOV token that also occurs in the article's OOV list gets that
article-local temporary id, and any other OOV token stays UNK. -/
def abstract2ids (v : Vocab) (oovs : List Token) (words : List Token) : List Nat :=
  words.map (fun w =>
    let i := v.word2id w
    if i = v.unk_id then
      if oovs.contains w then v.size + oovs.indexOf w else v.unk_id
    else i)

/-- The hyperparameters consumed by `batcher.py` (`hps`). -/
structure HPS where
  max_enc_steps : Nat
  max_dec_steps : Nat
  batch_size : Nat
  pointer_gen : Bool
  mode : String

/-- `Example.get_dec_inp_targ_seqs` (src/batcher.py:80-105): prepend the
start id to get the decoder input and append the stop id to the target,
truncating both to `max_len` when the input would be longer. -/
def get_dec_inp_targ_seqs (sequence : List Nat) (max_len start_id stop_id : Nat) :
    List Nat × List Nat :=
  let inp := start_id :: sequence
  let target := sequence
  if max_len < inp.length then
    (inp.take max_len, target.take max_len)
  else
    (inp, target ++ [stop_id])

/-- The fields of `Example` (src/batcher.py:29-77) that the batcher reads. -/
structure Example where
  enc_len : Nat
  enc_input : List Nat
  dec_input : List Nat
  dec_len : Nat
  target : List Nat
  enc_input_extend_vocab : List Nat
  article_oovs : List Token
  original_article : List Token
  original_abstract : List Token
deriving Repr, DecidableEq

/-- `Example.__init__` (src/batcher.py:32-77): truncate the article to
`max_enc_steps` tokens, map tokens to ids, build the decoder input/target
with sentinels, and in pointer-generator mode additionally build the
extended-vocabulary encoder sequence and overwrite the target with the
extended-vocabulary ids.  In non-pointer mode the extended fields do not
exist in the Python object; they are `[]` here and are never read. -/
def mkExample (hps : HPS) (v : Vocab) (article abstract : List Token) : Example :=
  let start_decoding := v.word2id SOS
  let stop_decoding := v.word2id EOS
  let article_words := if hps.max_enc_steps < article.length
                       then article.take hps.max_enc_steps else article
  let enc_len := article_words.length
  let enc_input := article_words.map v.word2id
  let abs_ids := abstract.map v.word2id
  let dt := get_dec_inp_targ_seqs abs_ids hps.max_dec_steps start_decoding stop_decoding
  let ext := if hps.pointer_gen then article2ids v article_words else ([], [])
  let target :=
    if hps.pointer_gen then
      (get_dec_inp_targ_seqs (abstract2ids v ext.2 abstract)
        hps.max_dec_steps start_decoding stop_decoding).2
    else dt.2
  { enc_len := enc_len
    enc_input := enc_input
    dec_input := dt.1
    dec_len := dt.1.length
    target := target
    enc_input_extend_vocab := ext.1
    article_oovs := ext.2
    original_article := article
    original_abstract := abstract }

/-- The `while len(l) < max_len: l.append(pad_id)` padding loop used by
`Example.pad_decoder_inp_targ` and `Example.pad_encoder_input`
(src/batcher.py:108-122). -/
def padTo (l : List Nat) (max_len pad_id : Nat) : List Nat :=
  l ++ List.replicate (max_len - l.length) pad_id

/-- `Example.pad_encoder_input` (src/batcher.py:116-122). -/
def pad_encoder_input (hps : HPS) (ex : Example) (max_len pad_id : Nat) : Example :=
  { ex with
    enc_input := padTo ex.enc_input max_len pad_id
    enc_input_extend_vocab :=
      if hps.pointer_gen then padTo ex.enc_input_extend_vocab max_len pad_id
      else ex.enc_input_extend_vocab }

/-- `Example.pad_decoder_inp_targ` (src/batcher.py:108-113). -/
def pad_decoder_inp_targ (ex : Example) (max_len pad_id : Nat) : Example :=
  { ex with
    dec_input := padTo ex.dec_input max_len pad_id
    target := padTo ex.target max_len pad_id }

/-- The fields of `Batch` (src/batcher.py:125-220).  Arrays are lists of
rows; rows beyond the examples present are the zero rows of `np.zeros`.
`padding_mask` is 0/1-valued float32 in the source; the values are exact so
`Nat` entries are faithful. -/
structure Batch where
  enc_batch : List (List Nat)
  enc_lens : List Nat
  max_art_oovs : Nat
  art_oovs : List (List Token)
  enc_batch_extend_vocab : List (List Nat)
  dec_batch : List (List Nat)
  target_batch : List (List Nat)
  padding_mask : List (List Nat)
  original_articles : List (List Token)
  original_abstracts : List (List Token)
deriving Repr, DecidableEq

/-- The total part of `Batch.__init__` (src/batcher.py:128-220):
`init_encoder_seq` pads every example's encoder sequences to the longest
pre-padding encoder length in the batch and stacks them with the length
vector; `init_decoder_seq` pads decoder inputs/targets to `max_dec_steps`
and builds the 0/1 padding mask; `store_orig_strings` keeps the original
texts.  Rows `i ≥ example_list.length` stay the zero rows of `np.zeros`.
In non-pointer mode the extended-vocabulary fields do not exist in the
Python object; they are empty here and never read. -/
def mkBatch (hps : HPS) (v : Vocab) (example_list : List Example) : Batch :=
  let pad_id := v.word2id PAD
  let max_enc_seq_len := (example_list.map Example.enc_len).foldl max 0
  let padded := example_list.map (fun ex =>
    pad_decoder_inp_targ (pad_encoder_input hps ex max_enc_seq_len pad_id)
      hps.max_dec_steps pad_id)
  let fill := hps.batch_size - example_list.length
  { enc_batch := padded.map Example.enc_input
      ++ List.replicate fill (List.replicate max_enc_seq_len 0)
    enc_lens := example_list.map Example.enc_len ++ List.replicate fill 0
    max_art_oovs :=
      if hps.pointer_gen
      then (example_list.map (fun ex => ex.article_oovs.length)).foldl max 0
      else 0
    art_oovs := if hps.pointer_gen then example_list.map Example.article_oovs else []
    enc_batch_extend_vocab :=
      if hps.pointer_gen
      then padded.map Example.enc_input_extend_vocab
        ++ List.replicate fill (List.replicate max_enc_seq_len 0)
      else []
    dec_batch := padded.map Example.dec_input
      ++ List.replicate fill (List.replicate hps.max_dec_steps 0)
    target_batch := padded.map Example.target
      ++ List.replicate fill (List.replicate hps.max_dec_steps 0)
    padding_mask := padded.map (fun ex =>
        (List.range hps.max_dec_steps).map (fun j => if j < ex.dec_len then 1 else 0))
      ++ List.replicate fill (List.replicate hps.max_dec_steps 0)
    original_articles := example_list.map Example.original_article
    original_abstracts := example_list.map Example.original_abstract }

/-- `Batch.__init__` as actually run: `max([ex.enc_len for ex in example_list])`
raises `ValueError` on an empty example list, and the numpy row assignments
raise `IndexError` when there are more examples than the `batch_size` rows
allocated; both are modelled as `none`.  (The remaining row assignments
always have matching lengths for examples built by `mkExample`, see the
length lemmas below, so no other failure of `Batch.__init__` is reachable
from the batcher.) -/
def makeBatch (hps : HPS) (v : Vocab) (example_list : List Example) : Option Batch :=
  if example_list.length = 0 ∨ hps.batch_size < example_list.length then none
  else some (mkBatch hps v example_list)

/-- The reading loop of `Batcher.refill` in non-decode mode
(src/batcher.py:265-276): read one line from each file; stop when either
file is exhausted (`readline` returned a falsy value); skip a pair whose
article token list is empty, warning; otherwise build an `Example`, and
stop after accumulating `batch_size * 16` examples (the cap is checked
right after appending, before the next read).  Returns the accumulated
examples and the unread remainders of the two files. -/
def refillLoop (hps : HPS) (v : Vocab) :
    List Line → List Line → List Example → List Example × List Line × List Line
  | x :: xs', y :: ys', acc =>
    if x.length = 0 then refillLoop hps v xs' ys' acc
    else
      let acc' := acc ++ [mkExample hps v x y]
      if acc'.length = hps.batch_size * 16 then (acc', xs', ys')
      else refillLoop hps v xs' ys' acc'
  | [], _ :: ys', acc => (acc, [], ys')
  | _ :: xs', [], acc => (acc, xs', [])
  | [], [], acc => (acc, [], [])

/-- `sorted(inputs, key=lambda inp: inp.enc_len)` (src/batcher.py:278). -/
def sortByEncLen (l : List Example) : List Example :=
  l.mergeSort (fun a b => a.enc_len ≤ b.enc_len)

/-- The slicing `for batch_start in xrange(0, len(inputs), batch_size)`
(src/batcher.py:280-281): consecutive groups of `n` (the last group may be
shorter).  `xrange` with step `0` raises, and with step `0` this definition
is only used under a `1 ≤ batch_size` hypothesis. -/
def chunkListGo (n : Nat) : Nat → List α → List (List α)
  | _, [] => []
  | 0, _ :: _ => []
  | Nat.succ fuel, a :: l =>
    if n = 0 then [] else ((a :: l).take n) :: chunkListGo n fuel ((a :: l).drop n)

/-- The slicing entry point: `l.length` is always enough fuel because each
step consumes at least one element (see `chunkListGo_congr`). -/
def chunkList (n : Nat) (l : List α) : List (List α) := chunkListGo n l.length l

theorem chunkListGo_congr {α : Type} (n : Nat) :
    ∀ (fuel fuel' : Nat) (l : List α), l.length ≤ fuel → l.length ≤ fuel' →
      chunkListGo n fuel l = chunkListGo n fuel' l := by
  intro fuel
  induction fuel with
  | zero =>
    intro fuel' l hf hf'
    match l, hf with
    | [], _ => cases fuel' <;> rfl
  | succ fuel ih =>
    intro fuel' l hf hf'
    match l, fuel', hf' with
    | [], fuel', _ => cases fuel' <;> rfl
    | a :: l, Nat.succ f', _ =>
      show (if n = 0 then [] else ((a :: l).take n) :: chunkListGo n fuel ((a :: l).drop n))
        = (if n = 0 then [] else ((a :: l).take n) :: chunkListGo n f' ((a :: l).drop n))
      by_cases hn : n = 0
      · rw [if_pos hn, if_pos hn]
      · rw [if_neg hn, if_neg hn,
          ih f' ((a :: l).drop n)
            (by simp only [List.length_drop, List.length_cons] at *; omega)
            (by simp only [List.length_drop, List.length_cons] at *; omega)]

theorem chunkList_cons {α : Type} (n : Nat) (hn : n ≠ 0) (a : α) (l : List α) :
    chunkList n (a :: l) = ((a :: l).take n) :: chunkList n ((a :: l).drop n) := by
  show (if n = 0 then [] else ((a :: l).take n) :: chunkListGo n l.length ((a :: l).drop n))
    = ((a :: l).take n) :: chunkList n ((a :: l).drop n)
  rw [if_neg hn]
  unfold chunkList
  rw [chunkListGo_congr n l.length ((a :: l).drop n).length ((a :: l).drop n)
    (by simp only [List.length_drop, List.length_cons]; omega) (Nat.le_refl _)]

/-- `Batcher.refill`, non-decode branch (src/batcher.py:264-285): read
examples, sort by encoder length unless `single_pass`, slice into
consecutive `batch_size` groups, build a `Batch` from each, and shuffle the
batch order unless `single_pass`.  `np.random.shuffle` is modelled by the
function parameter `shuffle` (the theorems assume it permutes its input).
The first component is `none` when some `Batch` construction raised. -/
def refill_nondecode (hps : HPS) (v : Vocab) (single_pass : Bool)
    (shuffle : List Batch → List Batch) (xs ys : List Line) :
    Option (List Batch) × List Line × List Line :=
  let r := refillLoop hps v xs ys []
  let inputs := if single_pass then r.1 else sortByEncLen r.1
  let cur_batches := chunkList hps.batch_size inputs
  ((cur_batches.mapM (makeBatch hps v)).map
      (fun bs => if single_pass then bs else shuffle bs),
    r.2)

/-- `Batcher.refill`, decode branch (src/batcher.py:286-296): read one line
pair; the loop body never reads again, so it appends an `Example` built
from that same pair until the batch holds `batch_size` of them (for
`batch_size = 0` the Python loop never terminates; the theorems assume
`1 ≤ batch_size`).  When either file is exhausted the loop body never runs
and `Batch([])` is built, which raises (`makeBatch` of `[]` is `none`). -/
def refill_decode (hps : HPS) (v : Vocab) (xs ys : List Line) :
    Option (List Batch) × List Line × List Line :=
  match xs, ys with
  | x :: xs', y :: ys' =>
    ((makeBatch hps v (List.replicate hps.batch_size (mkExample hps v x y))).map
        (fun b => [b]), xs', ys')
  | [], _ :: ys' => ((makeBatch hps v []).map (fun b => [b]), [], ys')
  | _ :: xs', [] => ((makeBatch hps v []).map (fun b => [b]), xs', [])
  | [], [] => ((makeBatch hps v []).map (fun b => [b]), [], [])

/-- `Batcher.refill` (src/batcher.py:263-296): dispatch on `hps.mode`. -/
def refill (hps : HPS) (v : Vocab) (single_pass : Bool)
    (shuffle : List Batch → List Batch) (xs ys : List Line) :
    Option (List Batch) × List Line × List Line :=
  if hps.mode ≠ "decode" then refill_nondecode hps v single_pass shuffle xs ys
  else refill_decode hps v xs ys

/-- The loop of `Batcher.pair_iter` (src/batcher.py:254-261): refill when
the batch list is empty, stop when a refill produced nothing, otherwise
yield the batches of this refill and continue.  The result is the whole
yielded sequence, or `Except.error ()` when an exception escaped.  `fuel`
bounds the number of refills; `xs.length + 1` always suffices because a
refill that produces a batch consumes at least one line of the x file. -/
def pair_iter_go (hps : HPS) (v : Vocab) (single_pass : Bool)
    (shuffle : List Batch → List Batch) :
    Nat → List Line → List Line → Except Unit (List Batch)
  | 0, _, _ => Except.error ()
  | Nat.succ fuel, xs, ys =>
    match refill hps v single_pass shuffle xs ys with
    | (none, _, _) => Except.error ()
    | (some [], _, _) => Except.ok []
    | (some (b :: bs), xs', ys') =>
      (pair_iter_go hps v single_pass shuffle fuel xs' ys').map
        (fun more => b :: (bs ++ more))

/-- `Batcher.pair_iter` (src/batcher.py:246-261): open the two files — a
missing file makes `open` raise `IOError`, modelled by a `none` file — then
run the yield loop. -/
def pair_iter_from (hps : HPS) (v : Vocab) (single_pass : Bool)
    (shuffle : List Batch → List Batch) (fx fy : Option (List Line)) :
    Except Unit (List Batch) :=
  match fx, fy with
  | some xs, some ys => pair_iter_go hps v single_pass shuffle (xs.length + 1) xs ys
  | _, _ => Except.error ()

/-- `gather_2d` (src/test.py:16-21): flatten the 2-D `params` and gather at
the flattened indices `indices1 * shape1 + indices2`.  `tf.shape(params)[1]`
is the (rectangular) row length, i.e. the length of the first row;
`tf.gather` at each flat index is modelled by `getD` (the theorems bound
the indices, where the two agree). -/
def gather_2d (params : List (List ℚ)) (indices1 indices2 : List Nat) : List ℚ :=
  let shape1 := (params.headD []).length
  let flat := params.flatten
  let flat_idx := List.zipWith (fun i j => i * shape1 + j) indices1 indices2
  flat_idx.map (fun ix => flat.getD ix 0)

/-- `_scatter_nd` (src/test.py:3-11): flatten a zero matrix of shape
`batch_size × extended_vsize`, overwrite position
`batch_nums[k] * extended_vsize + enc_batch[k]` with `copy_dist[k]`
(`tf.dynamic_stitch` merges in order, so a later index overwrites an
earlier one), and reshape back to `batch_size` rows.  `enc_batch` and
`batch_nums` enter only through `tf.reshape(·, [-1])`, so they are taken
here already flat. -/
def scatter_nd (enc_batch : List Nat) (batch_size : Nat) (batch_nums : List Nat)
    (extended_vsize : Nat) (copy_dist : List ℚ) : List (List ℚ) :=
  let copy_prob := List.replicate (batch_size * extended_vsize) (0 : ℚ)
  let linear_indices := List.zipWith (fun b e => b * extended_vsize + e) batch_nums enc_batch
  let flat_vocab_prob :=
    (List.zip linear_indices copy_dist).foldl (fun acc pv => acc.set pv.1 pv.2) copy_prob
  chunkList extended_vsize flat_vocab_prob

/-- The examples read from the two files by one non-decode `refill` call. -/
def readExamples (hps : HPS) (v : Vocab) (xs ys : List Line) : List Example :=
  (refillLoop hps v xs ys []).1

/-- The `Example`s built from a list of article/abstract line pairs. -/
def exsOf (hps : HPS) (v : Vocab) (pairs : List (Line × Line)) : List Example :=
  pairs.map (fun p => mkExample hps v p.1 p.2)

/-- `max([ex.enc_len for ex in example_list])` (src/batcher.py:159). -/
def maxEncOf (exs : List Example) : Nat :=
  (exs.map Example.enc_len).foldl max 0

/-- A concrete hyperparameter record in decode mode, for the concrete
instances below. -/
def hpsDecodeT : HPS :=
  { max_enc_steps := 5, max_dec_steps := 4, batch_size := 2,
    pointer_gen := false, mode := "decode" }

/-- A concrete hyperparameter record in train mode, for the concrete
instances below. -/
def hpsTrainT : HPS :=
  { max_enc_steps := 5, max_dec_steps := 4, batch_size := 1,
    pointer_gen := false, mode := "train" }

/-- A concrete hyperparameter record in pointer-generator mode, for the
concrete instances below. -/
def hpsPtrT : HPS :=
  { max_enc_steps := 5, max_dec_steps := 4, batch_size := 2,
    pointer_gen := true, mode := "train" }

/-- A concrete vocabulary, for the concrete instances below. -/
def vocabT : Vocab :=
  { word2id := fun w => if w = "a" then 1 else if w = "b" then 2 else 3,
    unk_id := 3, size := 10 }

/-! ### Elementary lemmas about the embedded operations -/

theorem padTo_length (l : List Nat) (max_len pad_id : Nat) (h : l.length ≤ max_len) :
    (padTo l max_len pad_id).length = max_len := by
  simp only [padTo, List.length_append, List.length_replicate]
  omega

theorem get_dec_inp_len_le (s : List Nat) (m a b : Nat) :
    (get_dec_inp_targ_seqs s m a b).1.length ≤ m := by
  unfold get_dec_inp_targ_seqs
  dsimp only
  split
  · exact List.length_take_le m (a :: s)
  · simp only [List.length_cons] at *
    omega

theorem get_dec_targ_len_eq (s : List Nat) (m a b : Nat) :
    (get_dec_inp_targ_seqs s m a b).2.length = (get_dec_inp_targ_seqs s m a b).1.length := by
  unfold get_dec_inp_targ_seqs
  dsimp only
  split
  · rename_i h
    simp only [List.length_take, List.length_cons] at *
    omega
  · simp

theorem get_dec_targ_len_le (s : List Nat) (m a b : Nat) :
    (get_dec_inp_targ_seqs s m a b).2.length ≤ m := by
  rw [get_dec_targ_len_eq]
  exact get_dec_inp_len_le s m a b

theorem article2ids_foldl_length (v : Vocab) (ws : List Token) (acc : List Nat × List Token) :
    (ws.foldl (article2idsStep v) acc).1.length = acc.1.length + ws.length := by
  induction ws generalizing acc with
  | nil => simp
  | cons w ws ih =>
    have hstep : (article2idsStep v acc w).1.length = acc.1.length + 1 := by
      unfold article2idsStep
      dsimp only
      split <;> simp
    rw [List.foldl_cons, ih, hstep, List.length_cons]
    omega

theorem article2ids_length (v : Vocab) (ws : List Token) :
    (article2ids v ws).1.length = ws.length := by
  unfold article2ids
  rw [article2ids_foldl_length]
  simp

theorem mkExample_enc_len (hps : HPS) (v : Vocab) (article abstract : List Token) :
    (mkExample hps v article abstract).enc_len = min article.length hps.max_enc_steps := by
  simp only [mkExample]
  split
  · rename_i hlt
    simp only [List.length_take]
    omega
  · rename_i hle
    simp only [not_lt] at hle
    omega

theorem mkExample_enc_input_length (hps : HPS) (v : Vocab) (article abstract : List Token) :
    (mkExample hps v article abstract).enc_input.length
      = (mkExample hps v article abstract).enc_len := by
  simp only [mkExample, List.length_map]

theorem mkExample_eev_length (hps : HPS) (v : Vocab) (article abstract : List Token)
    (hp : hps.pointer_gen = true) :
    (mkExample hps v article abstract).enc_input_extend_vocab.length
      = (mkExample hps v article abstract).enc_len := by
  simp only [mkExample, hp, if_true, article2ids_length]

theorem mkExample_dec_input_len_le (hps : HPS) (v : Vocab) (article abstract : List Token) :
    (mkExample hps v article abstract).dec_input.length ≤ hps.max_dec_steps := by
  simp only [mkExample]
  exact get_dec_inp_len_le _ _ _ _

theorem mkExample_target_len_le (hps : HPS) (v : Vocab) (article abstract : List Token) :
    (mkExample hps v article abstract).target.length ≤ hps.max_dec_steps := by
  simp only [mkExample]
  split
  · exact get_dec_targ_len_le _ _ _ _
  · exact get_dec_targ_len_le _ _ _ _

theorem foldl_max_init_le (l : List Nat) (a : Nat) : a ≤ l.foldl max a := by
  induction l generalizing a with
  | nil => simp
  | cons x l ih => exact le_trans (Nat.le_max_left a x) (ih (max a x))

theorem mem_le_foldl_max (l : List Nat) (a x : Nat) (hx : x ∈ l) : x ≤ l.foldl max a := by
  induction l generalizing a with
  | nil => cases hx
  | cons y l ih =>
    rcases List.mem_cons.mp hx with rfl | hmem
    · exact le_trans (Nat.le_max_right a x) (foldl_max_init_le l (max a x))
    · exact ih (max a y) hmem

theorem foldl_max_mem_cons (l : List Nat) (a : Nat) : l.foldl max a ∈ a :: l := by
  induction l generalizing a with
  | nil => simp
  | cons x l ih =>
    rw [List.foldl_cons]
    rcases List.mem_cons.mp (ih (max a x)) with hh | hh
    · rcases max_choice a x with hc | hc <;> rw [hh, hc] <;> simp
    · simp [hh]

theorem foldl_max_mem (l : List Nat) (h : l ≠ []) : l.foldl max 0 ∈ l := by
  match l with
  | x :: l' =>
    rw [List.foldl_cons, Nat.zero_max]
    exact foldl_max_mem_cons l' x

theorem makeBatch_some (hps : HPS) (v : Vocab) (exs : List Example)
    (hne : exs ≠ []) (hlen : exs.length ≤ hps.batch_size) :
    makeBatch hps v exs = some (mkBatch hps v exs) := by
  unfold makeBatch
  rw [if_neg]
  rw [not_or]
  exact ⟨fun hz => hne (List.length_eq_zero.mp hz), not_lt.mpr hlen⟩

theorem mkBatch_enc_batch_rows (hps : HPS) (v : Vocab) (exs : List Example)
    (hlen : ∀ ex ∈ exs, ex.enc_input.length = ex.enc_len) :
    ∀ row ∈ (mkBatch hps v exs).enc_batch, row.length = maxEncOf exs := by
  intro row hrow
  simp only [mkBatch, maxEncOf] at hrow ⊢
  rcases List.mem_append.mp hrow with hm | hm
  · rw [List.map_map] at hm
    obtain ⟨ex, hex, rfl⟩ := List.mem_map.mp hm
    simp only [Function.comp_apply, pad_decoder_inp_targ, pad_encoder_input]
    exact padTo_length _ _ _ (by
      rw [hlen ex hex]
      exact mem_le_foldl_max _ _ _ (List.mem_map.mpr ⟨ex, hex, rfl⟩))
  · rw [List.eq_of_mem_replicate hm]
    simp

theorem mkBatch_eev_rows (hps : HPS) (v : Vocab) (exs : List Example)
    (hp : hps.pointer_gen = true)
    (hlen : ∀ ex ∈ exs, ex.enc_input_extend_vocab.length = ex.enc_len) :
    ∀ row ∈ (mkBatch hps v exs).enc_batch_extend_vocab, row.length = maxEncOf exs := by
  intro row hrow
  simp only [mkBatch, maxEncOf, hp, if_true] at hrow ⊢
  rcases List.mem_append.mp hrow with hm | hm
  · rw [List.map_map] at hm
    obtain ⟨ex, hex, rfl⟩ := List.mem_map.mp hm
    simp only [Function.comp_apply, pad_decoder_inp_targ, pad_encoder_input, hp, if_true]
    exact padTo_length _ _ _ (by
      rw [hlen ex hex]
      exact mem_le_foldl_max _ _ _ (List.mem_map.mpr ⟨ex, hex, rfl⟩))
  · rw [List.eq_of_mem_replicate hm]
    simp

theorem mkBatch_dec_batch_rows (hps : HPS) (v : Vocab) (exs : List Example)
    (hlen : ∀ ex ∈ exs, ex.dec_input.length ≤ hps.max_dec_steps) :
    ∀ row ∈ (mkBatch hps v exs).dec_batch, row.length = hps.max_dec_steps := by
  intro row hrow
  simp only [mkBatch] at hrow
  rcases List.mem_append.mp hrow with hm | hm
  · rw [List.map_map] at hm
    obtain ⟨ex, hex, rfl⟩ := List.mem_map.mp hm
    simp only [Function.comp_apply, pad_decoder_inp_targ, pad_encoder_input]
    exact padTo_length _ _ _ (hlen ex hex)
  · rw [List.eq_of_mem_replicate hm]
    simp

theorem mkBatch_target_batch_rows (hps : HPS) (v : Vocab) (exs : List Example)
    (hlen : ∀ ex ∈ exs, ex.target.length ≤ hps.max_dec_steps) :
    ∀ row ∈ (mkBatch hps v exs).target_batch, row.length = hps.max_dec_steps := by
  intro row hrow
  simp only [mkBatch] at hrow
  rcases List.mem_append.mp hrow with hm | hm
  · rw [List.map_map] at hm
    obtain ⟨ex, hex, rfl⟩ := List.mem_map.mp hm
    simp only [Function.comp_apply, pad_decoder_inp_targ, pad_encoder_input]
    exact padTo_length _ _ _ (hlen ex hex)
  · rw [List.eq_of_mem_replicate hm]
    simp

/-! ### C1 -/

/-- C1 (corrected): for `max_len ≥ 1`, `get_dec_inp_targ_seqs` returns a
decoder input that starts with `start_id` and has length at most `max_len`,
and a target of the same length as the input that ends with `stop_id` if
the sequence was not truncated (`1 + len(sequence) ≤ max_len`); when it was
truncated the target is the first `max_len` ids of the sequence (so it may
coincidentally still end with `stop_id`). -/
theorem get_dec_inp_targ_seqs_spec (sequence : List Nat) (max_len start_id stop_id : Nat)
    (h : 1 ≤ max_len) :
    (get_dec_inp_targ_seqs sequence max_len start_id stop_id).1.head? = some start_id ∧
    (get_dec_inp_targ_seqs sequence max_len start_id stop_id).1.length ≤ max_len ∧
    (get_dec_inp_targ_seqs sequence max_len start_id stop_id).2.length =
      (get_dec_inp_targ_seqs sequence max_len start_id stop_id).1.length ∧
    (1 + sequence.length ≤ max_len →
      (get_dec_inp_targ_seqs sequence max_len start_id stop_id).2.getLast? = some stop_id) ∧
    (max_len < 1 + sequence.length →
      (get_dec_inp_targ_seqs sequence max_len start_id stop_id).2 = sequence.take max_len) := by
  refine ⟨?_, get_dec_inp_len_le _ _ _ _, get_dec_targ_len_eq _ _ _ _, ?_, ?_⟩
  · unfold get_dec_inp_targ_seqs
    dsimp only
    split
    · obtain ⟨m, rfl⟩ := Nat.exists_eq_add_of_le h
      rw [Nat.add_comm 1 m]
      simp [List.take_succ_cons]
    · simp
  · intro hle
    unfold get_dec_inp_targ_seqs
    dsimp only
    split
    · rename_i hgt
      simp only [List.length_cons] at hgt
      omega
    · simp
  · intro hgt
    unfold get_dec_inp_targ_seqs
    dsimp only
    split
    · simp
    · rename_i hle
      simp only [List.length_cons, not_lt] at hle
      omega

/-- C1 counterexample: with `sequence = [7]`, `max_len = 1`, `stop_id = 7`
the sequence is truncated (`1 + 1 > 1`), yet the returned target `[7]`
still ends with the stop id, refuting the claimed "only if" direction. -/
theorem get_dec_inp_targ_seqs_iff_cex :
    ¬ (1 + ([7] : List Nat).length ≤ 1) ∧
    (get_dec_inp_targ_seqs [7] 1 0 7).2.getLast? = some 7 := by
  constructor
  · decide
  · rfl

/-- Witness for C1's theorem at `sequence = [5, 6]`, `max_len = 4`. -/
theorem get_dec_inp_targ_seqs_spec_witness :
    (get_dec_inp_targ_seqs [5, 6] 4 1 9).1.head? = some 1 ∧
    (get_dec_inp_targ_seqs [5, 6] 4 1 9).1.length ≤ 4 ∧
    (get_dec_inp_targ_seqs [5, 6] 4 1 9).2.length =
      (get_dec_inp_targ_seqs [5, 6] 4 1 9).1.length ∧
    (1 + ([5, 6] : List Nat).length ≤ 4 →
      (get_dec_inp_targ_seqs [5, 6] 4 1 9).2.getLast? = some 9) ∧
    (4 < 1 + ([5, 6] : List Nat).length →
      (get_dec_inp_targ_seqs [5, 6] 4 1 9).2 = ([5, 6] : List Nat).take 4) :=
  get_dec_inp_targ_seqs_spec [5, 6] 4 1 9 (by decide)

/-! ### C2 -/

/-- C2 (confirmed): after Batch construction from a non-empty list of
Examples (at most `batch_size` of them, as the batcher always supplies),
every encoder input row — and, in pointer-generator mode, every
extended-vocabulary encoder row — has length equal to the longest
pre-padding encoder length in the batch (`maxEncOf`, which is attained and
an upper bound), and every decoder input and target row has length exactly
`max_dec_steps`: the stacked arrays are rectangular. -/
theorem batch_padding_spec (hps : HPS) (v : Vocab) (pairs : List (Line × Line))
    (hne : pairs ≠ []) (hbs : pairs.length ≤ hps.batch_size) :
    ∃ b, makeBatch hps v (exsOf hps v pairs) = some b ∧
      maxEncOf (exsOf hps v pairs) ∈ (exsOf hps v pairs).map Example.enc_len ∧
      (∀ x ∈ (exsOf hps v pairs).map Example.enc_len, x ≤ maxEncOf (exsOf hps v pairs)) ∧
      (∀ row ∈ b.enc_batch, row.length = maxEncOf (exsOf hps v pairs)) ∧
      (hps.pointer_gen = true →
        ∀ row ∈ b.enc_batch_extend_vocab, row.length = maxEncOf (exsOf hps v pairs)) ∧
      (∀ row ∈ b.dec_batch, row.length = hps.max_dec_steps) ∧
      (∀ row ∈ b.target_batch, row.length = hps.max_dec_steps) := by
  have hexne : exsOf hps v pairs ≠ [] := by
    simpa [exsOf] using hne
  have hlen : (exsOf hps v pairs).length ≤ hps.batch_size := by
    simpa [exsOf] using hbs
  refine ⟨mkBatch hps v (exsOf hps v pairs), makeBatch_some hps v _ hexne hlen,
    ?_, ?_, ?_, ?_, ?_, ?_⟩
  · exact foldl_max_mem _ (by simpa using hexne)
  · intro x hx
    exact mem_le_foldl_max _ _ _ hx
  · exact mkBatch_enc_batch_rows hps v _ (fun ex hex => by
      obtain ⟨p, hp, rfl⟩ := List.mem_map.mp hex
      exact mkExample_enc_input_length hps v p.1 p.2)
  · intro hp
    exact mkBatch_eev_rows hps v _ hp (fun ex hex => by
      obtain ⟨p, hp2, rfl⟩ := List.mem_map.mp hex
      exact mkExample_eev_length hps v p.1 p.2 hp)
  · exact mkBatch_dec_batch_rows hps v _ (fun ex hex => by
      obtain ⟨p, hp, rfl⟩ := List.mem_map.mp hex
      exact mkExample_dec_input_len_le hps v p.1 p.2)
  · exact mkBatch_target_batch_rows hps v _ (fun ex hex => by
      obtain ⟨p, hp, rfl⟩ := List.mem_map.mp hex
      exact mkExample_target_len_le hps v p.1 p.2)

/-- Witness for C2's theorem at a concrete batch in pointer-generator mode. -/
theorem batch_padding_spec_witness :
    ∃ b, makeBatch hpsPtrT vocabT (exsOf hpsPtrT vocabT [([ "a" ], [ "b" ])]) = some b ∧
      maxEncOf (exsOf hpsPtrT vocabT [([ "a" ], [ "b" ])])
        ∈ (exsOf hpsPtrT vocabT [([ "a" ], [ "b" ])]).map Example.enc_len ∧
      (∀ x ∈ (exsOf hpsPtrT vocabT [([ "a" ], [ "b" ])]).map Example.enc_len,
        x ≤ maxEncOf (exsOf hpsPtrT vocabT [([ "a" ], [ "b" ])])) ∧
      (∀ row ∈ b.enc_batch,
        row.length = maxEncOf (exsOf hpsPtrT vocabT [([ "a" ], [ "b" ])])) ∧
      (hpsPtrT.pointer_gen = true →
        ∀ row ∈ b.enc_batch_extend_vocab,
          row.length = maxEncOf (exsOf hpsPtrT vocabT [([ "a" ], [ "b" ])])) ∧
      (∀ row ∈ b.dec_batch, row.length = hpsPtrT.max_dec_steps) ∧
      (∀ row ∈ b.target_batch, row.length = hpsPtrT.max_dec_steps) :=
  batch_padding_spec hpsPtrT vocabT [([ "a" ], [ "b" ])] (by decide) (by decide)

/-! ### C7 -/

/-- C7 (confirmed): Example construction truncates the article to at most
`max_enc_steps` tokens, `enc_len` is the post-truncation pre-padding length
(the minimum of the article length and `max_enc_steps`, which is also the
pre-padding length of `enc_input`), and Batch construction records exactly
that per-example length in the `enc_lens` vector (rows past the examples
present are the zeros of `np.zeros`). -/
theorem enc_len_spec (hps : HPS) (v : Vocab) (pairs : List (Line × Line))
    (hne : pairs ≠ []) (hbs : pairs.length ≤ hps.batch_size) :
    (∀ p ∈ pairs, (mkExample hps v p.1 p.2).enc_len = min p.1.length hps.max_enc_steps) ∧
    (∀ p ∈ pairs,
      (mkExample hps v p.1 p.2).enc_input.length = (mkExample hps v p.1 p.2).enc_len) ∧
    ∃ b, makeBatch hps v (exsOf hps v pairs) = some b ∧
      b.enc_lens = pairs.map (fun p => min p.1.length hps.max_enc_steps)
        ++ List.replicate (hps.batch_size - pairs.length) 0 := by
  have hexne : exsOf hps v pairs ≠ [] := by
    simpa [exsOf] using hne
  have hlen : (exsOf hps v pairs).length ≤ hps.batch_size := by
    simpa [exsOf] using hbs
  refine ⟨fun p _ => mkExample_enc_len hps v p.1 p.2,
    fun p _ => mkExample_enc_input_length hps v p.1 p.2,
    mkBatch hps v (exsOf hps v pairs), makeBatch_some hps v _ hexne hlen, ?_⟩
  simp only [mkBatch]
  congr 1
  · rw [exsOf, List.map_map]
    exact List.map_congr_left (fun p _ => mkExample_enc_len hps v p.1 p.2)
  · simp [exsOf]

/-- Witness for C7's theorem at a concrete batch whose article is longer
than `max_enc_steps`. -/
theorem enc_len_spec_witness :
    (∀ p ∈ [([ "a", "b", "c", "d", "e", "f", "g" ], [ "b" ])],
      (mkExample hpsTrainT vocabT p.1 p.2).enc_len
        = min p.1.length hpsTrainT.max_enc_steps) ∧
    (∀ p ∈ [([ "a", "b", "c", "d", "e", "f", "g" ], [ "b" ])],
      (mkExample hpsTrainT vocabT p.1 p.2).enc_input.length
        = (mkExample hpsTrainT vocabT p.1 p.2).enc_len) ∧
    ∃ b, makeBatch hpsTrainT vocabT
        (exsOf hpsTrainT vocabT [([ "a", "b", "c", "d", "e", "f", "g" ], [ "b" ])]) = some b ∧
      b.enc_lens = ([([ "a", "b", "c", "d", "e", "f", "g" ], [ "b" ])].map
          (fun p => min p.1.length hpsTrainT.max_enc_steps))
        ++ List.replicate (hpsTrainT.batch_size
            - ([([ "a", "b", "c", "d", "e", "f", "g" ], [ "b" ])] : List (Line × Line)).length) 0 :=
  enc_len_spec hpsTrainT vocabT [([ "a", "b", "c", "d", "e", "f", "g" ], [ "b" ])]
    (by decide) (by decide)

/-! ### C8 -/

theorem flatten_getD {α : Type} (rows : List (List α)) (n i j : Nat) (d : α)
    (hrect : ∀ r ∈ rows, r.length = n) (hi : i < rows.length) (hj : j < n) :
    rows.flatten.getD (i * n + j) d = (rows.getD i []).getD j d := by
  induction rows generalizing i with
  | nil => simp at hi
  | cons r rs ih =>
    have hr : r.length = n := hrect r (by simp)
    cases i with
    | zero =>
      simp only [List.flatten_cons, Nat.zero_mul, Nat.zero_add, List.getD_cons_zero]
      exact List.getD_append r rs.flatten d j (by omega)
    | succ i =>
      simp only [List.flatten_cons, List.getD_cons_succ]
      rw [List.getD_append_right r rs.flatten d ((i + 1) * n + j) (by nlinarith)]
      have harith : (i + 1) * n + j - r.length = i * n + j := by
        rw [hr]
        ring_nf
        omega
      rw [harith]
      exact ih i (fun r hr2 => hrect r (by simp [hr2])) (by simpa using hi)

/-- C8 (confirmed): for a rectangular `m × n` matrix `params` and in-range
index vectors, `gather_2d` returns at position `k` the entry
`params[indices1[k]][indices2[k]]`, computed through the flattened index
`indices1[k] * n + indices2[k]`. -/
theorem gather_2d_spec (params : List (List ℚ)) (indices1 indices2 : List Nat)
    (m n k : Nat) (hm : params.length = m) (hrect : ∀ r ∈ params, r.length = n)
    (hlen : indices1.length = indices2.length) (hk : k < indices1.length)
    (h1 : indices1.getD k 0 < m) (h2 : indices2.getD k 0 < n) :
    (gather_2d params indices1 indices2).getD k 0
      = (params.getD (indices1.getD k 0) []).getD (indices2.getD k 0) 0 := by
  have hmpos : 0 < m := Nat.pos_of_ne_zero (by omega)
  have hpne : params ≠ [] := by
    intro hnil
    rw [hnil] at hm
    simp at hm
    omega
  have hshape : (params.headD []).length = n := by
    match params, hpne with
    | r :: rs, _ => exact hrect r (by simp)
  unfold gather_2d
  dsimp only
  have hzlen : (List.zipWith (fun i j => i * (params.headD []).length + j)
      indices1 indices2).length = indices1.length := by
    rw [List.length_zipWith]
    omega
  have hk1 : k < indices1.length := hk
  have hk2 : k < indices2.length := by omega
  have hkz : k < (List.zipWith (fun i j => i * (params.headD []).length + j)
      indices1 indices2).length := by omega
  have hkm : k < ((List.zipWith (fun i j => i * (params.headD []).length + j)
      indices1 indices2).map (fun ix => params.flatten.getD ix 0)).length := by
    simpa using hkz
  rw [List.getD_eq_getElem _ _ hkm, List.getElem_map, List.getElem_zipWith]
  rw [List.getD_eq_getElem _ _ hk1, List.getD_eq_getElem _ _ hk2] at *
  simp only [hshape]
  exact flatten_getD params n indices1[k] indices2[k] 0 hrect (by omega) h2

/-- Witness for C8's theorem on a concrete 2 × 3 matrix. -/
theorem gather_2d_spec_witness :
    (gather_2d [[1, 2, 3], [4, 5, 6]] [1, 0] [2, 1]).getD 0 0
      = (([[1, 2, 3], [4, 5, 6]] : List (List ℚ)).getD (([1, 0] : List Nat).getD 0 0) []).getD
          (([2, 1] : List Nat).getD 0 0) 0 :=
  gather_2d_spec [[1, 2, 3], [4, 5, 6]] [1, 0] [2, 1] 2 3 0 rfl
    (by intro r hr; fin_cases hr <;> rfl)
    rfl (by decide) (by decide) (by decide)

/-! ### C9 -/

theorem foldl_set_length {α : Type} (ps : List (Nat × α)) (init : List α) :
    (ps.foldl (fun acc pv => acc.set pv.1 pv.2) init).length = init.length := by
  induction ps generalizing init with
  | nil => rfl
  | cons p ps ih => rw [List.foldl_cons, ih, List.length_set]

theorem getD_set_ne {α : Type} (l : List α) (q p : Nat) (v d : α) (hne : q ≠ p) :
    (l.set q v).getD p d = l.getD p d := by
  rw [List.getD_eq_getElem?_getD, List.getD_eq_getElem?_getD, List.getElem?_set_ne hne]

theorem getD_set_self {α : Type} (l : List α) (p : Nat) (v d : α) (hp : p < l.length) :
    (l.set p v).getD p d = v := by
  rw [List.getD_eq_getElem?_getD, List.getElem?_set_self hp]
  rfl

theorem foldl_set_getD_not_mem {α : Type} (p : Nat) (d : α) :
    ∀ (ps : List (Nat × α)) (init : List α), p ∉ ps.map Prod.fst →
      (ps.foldl (fun acc pv => acc.set pv.1 pv.2) init).getD p d = init.getD p d := by
  intro ps
  induction ps with
  | nil => intro init _; rfl
  | cons q ps ih =>
    intro init hp
    have h1 : q.1 ≠ p := fun he => hp (by simp [← he])
    have h2 : p ∉ ps.map Prod.fst := fun hmem => hp (by simp [hmem])
    rw [List.foldl_cons, ih _ h2, getD_set_ne _ _ _ _ _ h1]

theorem foldl_set_getD_last {α : Type} (l1 l2 : List (Nat × α)) (p : Nat) (v d : α)
    (init : List α) (hp : p < init.length) (hnot : p ∉ l2.map Prod.fst) :
    ((l1 ++ (p, v) :: l2).foldl (fun acc pv => acc.set pv.1 pv.2) init).getD p d = v := by
  rw [List.foldl_append, List.foldl_cons]
  rw [foldl_set_getD_not_mem p d l2 _ hnot]
  exact getD_set_self _ p v d (by rw [foldl_set_length]; exact hp)

theorem getD_replicate_zero (n p : Nat) : (List.replicate n (0 : ℚ)).getD p 0 = 0 := by
  rcases Nat.lt_or_ge p n with hlt | hge
  · rw [List.getD_eq_getElem _ _ (by simpa using hlt)]
    exact List.getElem_replicate 0 _
  · rw [List.getD_eq_getElem?_getD, List.getElem?_eq_none (by simpa using hge)]
    rfl

theorem chunkList_nil {α : Type} (n : Nat) : chunkList n ([] : List α) = [] := rfl

theorem chunkList_flatten {α : Type} (n : Nat) (hn : n ≠ 0) :
    (l : List α) → (chunkList n l).flatten = l
  | [] => rfl
  | a :: l => by
    rw [chunkList_cons n hn a l, List.flatten_cons,
      chunkList_flatten n hn ((a :: l).drop n)]
    exact List.take_append_drop n (a :: l)
termination_by l => l.length
decreasing_by simp only [List.length_drop, List.length_cons]; omega

theorem chunkList_mem_basic {α : Type} (n : Nat) :
    (l : List α) → ∀ c ∈ chunkList n l, c ≠ [] ∧ c.length ≤ n
  | [] => by intro c hc; cases hc
  | a :: l => by
    by_cases hn : n = 0
    · subst hn
      intro c hc
      rw [show chunkList 0 (a :: l) = [] from rfl] at hc
      cases hc
    · intro c hc
      rw [chunkList_cons n hn a l] at hc
      rcases List.mem_cons.mp hc with rfl | hmem
      · refine ⟨?_, List.length_take_le n (a :: l)⟩
        cases n with
        | zero => exact absurd rfl hn
        | succ m => simp [List.take_succ_cons]
      · exact chunkList_mem_basic n ((a :: l).drop n) c hmem
termination_by l => l.length
decreasing_by simp only [List.length_drop, List.length_cons]; omega

theorem chunkList_length_exact {α : Type} (n : Nat) (hn : n ≠ 0) (bs : Nat) :
    ∀ (l : List α), l.length = bs * n → (chunkList n l).length = bs := by
  induction bs with
  | zero =>
    intro l hl
    simp only [Nat.zero_mul] at hl
    rw [List.length_eq_zero.mp hl]
    rfl
  | succ bs ih =>
    intro l hl
    have hmul : (bs + 1) * n = bs * n + n := Nat.succ_mul bs n
    match l with
    | [] =>
      simp only [List.length_nil] at hl
      omega
    | a :: l' =>
      rw [chunkList_cons n hn a l', List.length_cons]
      rw [ih ((a :: l').drop n) (by simp only [List.length_drop]; omega)]

theorem chunkList_rows_exact {α : Type} (n : Nat) (hn : n ≠ 0) (bs : Nat) :
    ∀ (l : List α), l.length = bs * n → ∀ c ∈ chunkList n l, c.length = n := by
  induction bs with
  | zero =>
    intro l hl c hc
    simp only [Nat.zero_mul] at hl
    rw [List.length_eq_zero.mp hl] at hc
    cases hc
  | succ bs ih =>
    intro l hl c hc
    have hmul : (bs + 1) * n = bs * n + n := Nat.succ_mul bs n
    match l, hc with
    | [], hc =>
      simp only [List.length_nil] at hl
      omega
    | a :: l', hc =>
      rw [chunkList_cons n hn a l'] at hc
      rcases List.mem_cons.mp hc with rfl | hmem
      · rw [List.length_take]
        simp only [List.length_cons] at hl ⊢
        omega
      · exact ih ((a :: l').drop n) (by simp only [List.length_drop]; omega) c hmem

theorem flat_index_inj (vs b e r c : Nat) (he : e < vs) (hc : c < vs)
    (h : b * vs + e = r * vs + c) : b = r ∧ e = c := by
  have hvs : 0 < vs := by omega
  have hdiv1 : (b * vs + e) / vs = b := by
    rw [Nat.add_comm (b * vs) e, Nat.mul_comm b vs,
      Nat.add_mul_div_left e b hvs, Nat.div_eq_of_lt he]
    exact Nat.zero_add b
  have hdiv2 : (r * vs + c) / vs = r := by
    rw [Nat.add_comm (r * vs) c, Nat.mul_comm r vs,
      Nat.add_mul_div_left c r hvs, Nat.div_eq_of_lt hc]
    exact Nat.zero_add r
  have hbr : b = r := by rw [← hdiv1, h, hdiv2]
  subst hbr
  exact ⟨rfl, Nat.add_left_cancel h⟩

theorem scatter_nd_entry (enc_batch batch_nums : List Nat) (copy_dist : List ℚ)
    (batch_size extended_vsize : Nat) (hvs : extended_vsize ≠ 0) (r c : Nat)
    (hr : r < batch_size) (hc : c < extended_vsize) :
    ((scatter_nd enc_batch batch_size batch_nums extended_vsize copy_dist).getD r []).getD c 0
      = ((List.zip (List.zipWith (fun b e => b * extended_vsize + e) batch_nums enc_batch)
            copy_dist).foldl (fun acc pv => acc.set pv.1 pv.2)
            (List.replicate (batch_size * extended_vsize) (0 : ℚ))).getD
          (r * extended_vsize + c) 0 := by
  unfold scatter_nd
  dsimp only
  have hflatlen : ((List.zip (List.zipWith (fun b e => b * extended_vsize + e)
        batch_nums enc_batch) copy_dist).foldl (fun acc pv => acc.set pv.1 pv.2)
        (List.replicate (batch_size * extended_vsize) (0 : ℚ))).length
      = batch_size * extended_vsize := by
    rw [foldl_set_length, List.length_replicate]
  rw [← flatten_getD _ extended_vsize r c (0 : ℚ)
    (chunkList_rows_exact extended_vsize hvs batch_size _ hflatlen)
    (by rw [chunkList_length_exact extended_vsize hvs batch_size _ hflatlen]; exact hr) hc]
  rw [chunkList_flatten extended_vsize hvs]

theorem foldl_zip_set_getD (linear : List Nat) (vals : List ℚ) (init : List ℚ)
    (k : Nat) (hk : k < linear.length) (hlen : linear.length ≤ vals.length)
    (hp : linear[k] < init.length) (hnodup : linear.Nodup) :
    ((linear.zip vals).foldl (fun acc pv => acc.set pv.1 pv.2) init).getD linear[k] 0
      = vals.getD k 0 := by
  have hkv : k < vals.length := lt_of_lt_of_le hk hlen
  have hkps : k < (linear.zip vals).length := by
    rw [List.length_zip]
    exact lt_min hk hkv
  have hdecomp : linear.zip vals
      = (linear.zip vals).take k ++ (linear[k], vals[k]) :: (linear.zip vals).drop (k + 1) := by
    conv_lhs => rw [← List.take_append_drop k (linear.zip vals),
      List.drop_eq_getElem_cons hkps]
    rw [List.getElem_zip]
  have hnot : linear[k] ∉ ((linear.zip vals).drop (k + 1)).map Prod.fst := by
    rw [List.map_drop, List.map_fst_zip _ _ hlen]
    intro hmem
    obtain ⟨j, hj, hje⟩ := List.mem_iff_getElem.mp hmem
    rw [List.getElem_drop] at hje
    have := hnodup.getElem_inj_iff.mp hje
    omega
  rw [hdecomp, foldl_set_getD_last _ _ _ _ _ _ hp hnot, List.getD_eq_getElem _ _ hkv]

/-- C9 (corrected): with in-range indices that are additionally pairwise
distinct as flattened indices, `scatter_nd` returns the
`batch_size × extended_vsize` matrix holding `copy_dist[k]` at row
`batch_nums[k]`, column `enc_batch[k]`, and zero at every other position.
Without the distinctness assumption the claim fails: `tf.dynamic_stitch`
overwrites, so of two equal flattened indices only the later one keeps its
value (see the counterexample). -/
theorem scatter_nd_spec (enc_batch batch_nums : List Nat) (copy_dist : List ℚ)
    (batch_size extended_vsize : Nat) (hvs : extended_vsize ≠ 0)
    (hlen1 : batch_nums.length = enc_batch.length)
    (hlen2 : copy_dist.length = enc_batch.length)
    (hbound : ∀ k, k < enc_batch.length →
      enc_batch.getD k 0 < extended_vsize ∧ batch_nums.getD k 0 < batch_size)
    (hinj : (List.zipWith (fun b e => b * extended_vsize + e) batch_nums enc_batch).Nodup) :
    (scatter_nd enc_batch batch_size batch_nums extended_vsize copy_dist).length
        = batch_size ∧
    (∀ row ∈ scatter_nd enc_batch batch_size batch_nums extended_vsize copy_dist,
      row.length = extended_vsize) ∧
    (∀ k, k < enc_batch.length →
      ((scatter_nd enc_batch batch_size batch_nums extended_vsize copy_dist).getD
          (batch_nums.getD k 0) []).getD (enc_batch.getD k 0) 0 = copy_dist.getD k 0) ∧
    (∀ r c, r < batch_size → c < extended_vsize →
      (∀ k, k < enc_batch.length →
        ¬(batch_nums.getD k 0 = r ∧ enc_batch.getD k 0 = c)) →
      ((scatter_nd enc_batch batch_size batch_nums extended_vsize copy_dist).getD r []).getD
          c 0 = 0) := by
  have hlinlen : (List.zipWith (fun b e => b * extended_vsize + e)
      batch_nums enc_batch).length = enc_batch.length := by
    rw [List.length_zipWith, hlen1]
    exact min_self _
  have hflatlen : ((List.zip (List.zipWith (fun b e => b * extended_vsize + e)
        batch_nums enc_batch) copy_dist).foldl (fun acc pv => acc.set pv.1 pv.2)
        (List.replicate (batch_size * extended_vsize) (0 : ℚ))).length
      = batch_size * extended_vsize := by
    rw [foldl_set_length, List.length_replicate]
  refine ⟨?_, ?_, ?_, ?_⟩
  · exact chunkList_length_exact extended_vsize hvs batch_size _ hflatlen
  · exact chunkList_rows_exact extended_vsize hvs batch_size _ hflatlen
  · intro k hk
    have hk1 : k < batch_nums.length := by omega
    have hk2 : k < copy_dist.length := by omega
    have hklin : k < (List.zipWith (fun b e => b * extended_vsize + e)
        batch_nums enc_batch).length := by omega
    obtain ⟨hcb, hbb⟩ := hbound k hk
    rw [List.getD_eq_getElem _ _ hk] at hcb
    rw [List.getD_eq_getElem _ _ hk1] at hbb
    rw [scatter_nd_entry enc_batch batch_nums copy_dist batch_size extended_vsize hvs
      (batch_nums.getD k 0) (enc_batch.getD k 0)
      (by rw [List.getD_eq_getElem _ _ hk1]; exact hbb)
      (by rw [List.getD_eq_getElem _ _ hk]; exact hcb)]
    have hidx : batch_nums.getD k 0 * extended_vsize + enc_batch.getD k 0
        = (List.zipWith (fun b e => b * extended_vsize + e) batch_nums enc_batch)[k] := by
      rw [List.getElem_zipWith, List.getD_eq_getElem _ _ hk1, List.getD_eq_getElem _ _ hk]
    rw [hidx]
    apply foldl_zip_set_getD _ _ _ k hklin (by omega) _ hinj
    rw [List.length_replicate, List.getElem_zipWith]
    calc batch_nums[k] * extended_vsize + enc_batch[k]
        < batch_nums[k] * extended_vsize + extended_vsize := by omega
      _ = (batch_nums[k] + 1) * extended_vsize := (Nat.succ_mul _ _).symm
      _ ≤ batch_size * extended_vsize := Nat.mul_le_mul_right extended_vsize (by omega)
  · intro r c hr hc hnone
    rw [scatter_nd_entry enc_batch batch_nums copy_dist batch_size extended_vsize hvs
      r c hr hc]
    rw [foldl_set_getD_not_mem (r * extended_vsize + c) 0 _ _ ?hnm]
    · exact getD_replicate_zero _ _
    case hnm =>
      rw [List.map_fst_zip _ _ (by omega)]
      intro hmem
      obtain ⟨j, hj, hje⟩ := List.mem_iff_getElem.mp hmem
      have hj2 : j < enc_batch.length := by omega
      have hj1 : j < batch_nums.length := by omega
      rw [List.getElem_zipWith] at hje
      obtain ⟨hcb, hbb⟩ := hbound j hj2
      rw [List.getD_eq_getElem _ _ hj2] at hcb
      obtain ⟨hbr, hec⟩ := flat_index_inj extended_vsize batch_nums[j] enc_batch[j] r c
        hcb hc hje
      exact hnone j hj2 ⟨by rw [List.getD_eq_getElem _ _ hj1]; exact hbr,
        by rw [List.getD_eq_getElem _ _ hj2]; exact hec⟩

/-- C9 counterexample: with all bounds satisfied but the two flat positions
equal (`batch_nums = [0, 0]`, `enc_batch = [0, 0]`), the entry at row
`batch_nums[0]`, column `enc_batch[0]` holds `2`, not `copy_dist[0] = 1`:
the scatter overwrites instead of keeping every `copy_dist[k]`. -/
theorem scatter_nd_dup_cex :
    ((scatter_nd [0, 0] 1 [0, 0] 1 [1, 2]).getD (([0, 0] : List Nat).getD 0 0) []).getD
        (([0, 0] : List Nat).getD 0 0) 0 = 2 ∧
    ((scatter_nd [0, 0] 1 [0, 0] 1 [1, 2]).getD (([0, 0] : List Nat).getD 0 0) []).getD
        (([0, 0] : List Nat).getD 0 0) 0 ≠ ([1, 2] : List ℚ).getD 0 0 := by
  constructor
  · rfl
  · intro hcontra
    have : (2 : ℚ) = 1 := hcontra
    norm_num at this

/-- Witness for C9's theorem at distinct concrete indices. -/
theorem scatter_nd_spec_witness :
    (scatter_nd [1, 0] 2 [0, 1] 3 [5, 7]).length = 2 ∧
    (∀ row ∈ scatter_nd [1, 0] 2 [0, 1] 3 [5, 7], row.length = 3) ∧
    (∀ k, k < ([1, 0] : List Nat).length →
      ((scatter_nd [1, 0] 2 [0, 1] 3 [5, 7]).getD (([0, 1] : List Nat).getD k 0) []).getD
          (([1, 0] : List Nat).getD k 0) 0 = ([5, 7] : List ℚ).getD k 0) ∧
    (∀ r c, r < 2 → c < 3 →
      (∀ k, k < ([1, 0] : List Nat).length →
        ¬(([0, 1] : List Nat).getD k 0 = r ∧ ([1, 0] : List Nat).getD k 0 = c)) →
      ((scatter_nd [1, 0] 2 [0, 1] 3 [5, 7]).getD r []).getD c 0 = 0) :=
  scatter_nd_spec [1, 0] [0, 1] [5, 7] 2 3 (by decide) rfl rfl
    (by decide)
    (by decide)

/-! ### Refill lemmas and C3, C5, C10, C4 -/

theorem refillLoop_cons (hps : HPS) (v : Vocab) (x y : Line) (xs ys : List Line)
    (acc : List Example) :
    refillLoop hps v (x :: xs) (y :: ys) acc
      = if x.length = 0 then refillLoop hps v xs ys acc
        else if (acc ++ [mkExample hps v x y]).length = hps.batch_size * 16
          then (acc ++ [mkExample hps v x y], xs, ys)
          else refillLoop hps v xs ys (acc ++ [mkExample hps v x y]) := rfl

theorem refill_nondecode_eq (hps : HPS) (v : Vocab) (single_pass : Bool)
    (shuffle : List Batch → List Batch) (xs ys : List Line)
    (hmode : hps.mode ≠ "decode") :
    refill hps v single_pass shuffle xs ys
      = refill_nondecode hps v single_pass shuffle xs ys := by
  rw [refill, if_pos hmode]

theorem refillLoop_skip_empty (hps : HPS) (v : Vocab) :
    ∀ (xs1 ys1 xs2 ys2 : List Line) (y : Line) (acc : List Example),
      xs1.length = ys1.length →
      (refillLoop hps v (xs1 ++ [] :: xs2) (ys1 ++ y :: ys2) acc).1
        = (refillLoop hps v (xs1 ++ xs2) (ys1 ++ ys2) acc).1 := by
  intro xs1
  induction xs1 with
  | nil =>
    intro ys1 xs2 ys2 y acc hlen
    have hy : ys1 = [] := List.length_eq_zero.mp hlen.symm
    subst hy
    rfl
  | cons x xs1' ih =>
    intro ys1 xs2 ys2 y acc hlen
    match ys1, hlen with
    | y1 :: ys1', hlen =>
      have hlen' : xs1'.length = ys1'.length := by
        simp only [List.length_cons] at hlen
        omega
      simp only [List.cons_append]
      rw [refillLoop_cons, refillLoop_cons]
      by_cases hx : x.length = 0
      · rw [if_pos hx, if_pos hx]
        exact ih ys1' xs2 ys2 y acc hlen'
      · rw [if_neg hx, if_neg hx]
        by_cases hcap : (acc ++ [mkExample hps v x y1]).length = hps.batch_size * 16
        · rw [if_pos hcap, if_pos hcap]
        · rw [if_neg hcap, if_neg hcap]
          exact ih ys1' xs2 ys2 y _ hlen'

theorem refillLoop_take (hps : HPS) (v : Vocab) :
    ∀ (xs ys : List Line) (acc : List Example),
      (refillLoop hps v xs ys acc).1
        = (refillLoop hps v (xs.take ys.length) (ys.take xs.length) acc).1 := by
  intro xs
  induction xs with
  | nil =>
    intro ys acc
    cases ys <;> rfl
  | cons x xs ih =>
    intro ys acc
    cases ys with
    | nil => rfl
    | cons y ys =>
      simp only [List.length_cons, List.take_succ_cons]
      rw [refillLoop_cons, refillLoop_cons]
      by_cases hx : x.length = 0
      · rw [if_pos hx, if_pos hx]
        exact ih ys acc
      · rw [if_neg hx, if_neg hx]
        by_cases hcap : (acc ++ [mkExample hps v x y]).length = hps.batch_size * 16
        · rw [if_pos hcap, if_pos hcap]
        · rw [if_neg hcap, if_neg hcap]
          exact ih ys _

theorem mapM_makeBatch_eq (hps : HPS) (v : Vocab) :
    ∀ (cs : List (List Example)),
      (∀ c ∈ cs, c ≠ [] ∧ c.length ≤ hps.batch_size) →
      cs.mapM (makeBatch hps v) = some (cs.map (mkBatch hps v)) := by
  intro cs
  induction cs with
  | nil => intro _; rfl
  | cons c cs ih =>
    intro h
    obtain ⟨hne, hle⟩ := h c (by simp)
    rw [List.mapM_cons, makeBatch_some hps v c hne hle, ih (fun c hc => h c (by simp [hc]))]
    rfl

/-- C3 (corrected): in every non-decode mode a line pair whose article
token list is empty is skipped — no Example is built from it and the
refill's batches are exactly those obtained with the pair absent,
processing continuing with the following pairs.  In decode mode no such
check exists, and an Example is built even from an empty article (see the
counterexample). -/
theorem empty_article_skipped (hps : HPS) (v : Vocab) (single_pass : Bool)
    (shuffle : List Batch → List Batch) (xs1 xs2 ys1 ys2 : List Line) (y : Line)
    (hmode : hps.mode ≠ "decode") (hlen : xs1.length = ys1.length) :
    (refill hps v single_pass shuffle (xs1 ++ [] :: xs2) (ys1 ++ y :: ys2)).1
      = (refill hps v single_pass shuffle (xs1 ++ xs2) (ys1 ++ ys2)).1 := by
  rw [refill_nondecode_eq hps v single_pass shuffle _ _ hmode,
    refill_nondecode_eq hps v single_pass shuffle _ _ hmode]
  unfold refill_nondecode
  dsimp only
  rw [refillLoop_skip_empty hps v xs1 ys1 xs2 ys2 y [] hlen]

/-- C3 counterexample: in decode mode, `refill` on a pair whose article is
empty builds a batch of `batch_size = 2` Examples from that very pair (its
`original_articles` are the two copies of the empty article): the pair is
not skipped. -/
theorem empty_article_decode_cex :
    (refill hpsDecodeT vocabT true id [[]] [["a"]]).1.map
        (List.map Batch.original_articles) = some [[[], []]] := rfl

/-- Witness for C3's theorem: inserting an empty-article pair in concrete
two-line files changes nothing about the produced batches. -/
theorem empty_article_skipped_witness :
    (refill hpsTrainT vocabT true id ([["a"]] ++ [] :: [["b"]]) ([["c"]] ++ ["d"] :: [["e"]])).1
      = (refill hpsTrainT vocabT true id ([["a"]] ++ [["b"]]) ([["c"]] ++ [["e"]])).1 :=
  empty_article_skipped hpsTrainT vocabT true id [["a"]] [["b"]] [["c"]] [["e"]] ["d"]
    (by decide) (by decide)

/-- C5 (corrected): a missing input file makes `pair_iter` raise at the
`open` call; but mismatched line counts raise nothing: reading stops at the
end of the shorter file (only the aligned prefixes matter) and the longer
file's extra lines are silently ignored — a non-decode refill with
`batch_size ≥ 1` never raises.  The `1 ≤ batch_size` hypothesis is needed
because at `batch_size = 0` the program does raise, from
`xrange(0, len(inputs), 0)` (src/batcher.py:280), an error path `chunkList`
does not model. -/
theorem malformed_input_spec (hps : HPS) (v : Vocab) (single_pass : Bool)
    (shuffle : List Batch → List Batch) (fx fy : Option (List Line)) (xs ys : List Line)
    (hmode : hps.mode ≠ "decode") (hbs : 1 ≤ hps.batch_size) :
    ((fx = none ∨ fy = none) →
      pair_iter_from hps v single_pass shuffle fx fy = Except.error ()) ∧
    ((refill hps v single_pass shuffle xs ys).1
      = (refill hps v single_pass shuffle (xs.take ys.length) (ys.take xs.length)).1) ∧
    ((refill hps v single_pass shuffle xs ys).1.isSome = true) := by
  refine ⟨?_, ?_, ?_⟩
  · intro hmf
    rcases hmf with rfl | rfl
    · cases fy <;> rfl
    · cases fx <;> rfl
  · rw [refill_nondecode_eq hps v single_pass shuffle _ _ hmode,
      refill_nondecode_eq hps v single_pass shuffle _ _ hmode]
    unfold refill_nondecode
    dsimp only
    rw [← refillLoop_take hps v xs ys []]
  · rw [refill_nondecode_eq hps v single_pass shuffle _ _ hmode]
    unfold refill_nondecode
    dsimp only
    rw [mapM_makeBatch_eq hps v _ (chunkList_mem_basic _ _)]
    rfl

/-- C5 counterexample: two x lines against one y line (mismatched counts):
the non-decode refill raises no error and silently produces one batch from
the single aligned pair. -/
theorem mismatched_lines_cex :
    (refill hpsTrainT vocabT true id [["a"], ["b"]] [["c"]]).1.map List.length
      = some 1 := rfl

/-- Witness for C5's theorem at concrete inputs (a missing x file, and
mismatched two-against-one files). -/
theorem malformed_input_spec_witness :
    ((none = (none : Option (List Line)) ∨ some ([] : List Line) = none) →
      pair_iter_from hpsTrainT vocabT true id none (some []) = Except.error ()) ∧
    ((refill hpsTrainT vocabT true id [["a"], ["b"]] [["c"]]).1
      = (refill hpsTrainT vocabT true id
          (([["a"], ["b"]] : List Line).take ([["c"]] : List Line).length)
          (([["c"]] : List Line).take ([["a"], ["b"]] : List Line).length)).1) ∧
    ((refill hpsTrainT vocabT true id [["a"], ["b"]] [["c"]]).1.isSome = true) :=
  malformed_input_spec hpsTrainT vocabT true id none (some []) [["a"], ["b"]] [["c"]]
    (by decide) (by decide)

/-- C10 (confirmed): in decode mode each `refill` call consumes exactly the
one line pair read before the loop (it returns the untouched remainders of
both files) and produces a single Batch built from `batch_size` copies of
the Example of that same pair — one source example repeated. -/
theorem decode_refill_spec (hps : HPS) (v : Vocab) (single_pass : Bool)
    (shuffle : List Batch → List Batch) (x y : Line) (xs ys : List Line)
    (hmode : hps.mode = "decode") (hbs : 1 ≤ hps.batch_size) :
    refill hps v single_pass shuffle (x :: xs) (y :: ys)
      = (some [mkBatch hps v (List.replicate hps.batch_size (mkExample hps v x y))],
          xs, ys) ∧
    (mkBatch hps v (List.replicate hps.batch_size (mkExample hps v x y))).original_articles
      = List.replicate hps.batch_size x ∧
    (mkBatch hps v (List.replicate hps.batch_size (mkExample hps v x y))).original_abstracts
      = List.replicate hps.batch_size y := by
  refine ⟨?_, ?_, ?_⟩
  · rw [refill, if_neg (by simp [hmode])]
    unfold refill_decode
    dsimp only
    rw [makeBatch_some hps v (List.replicate hps.batch_size (mkExample hps v x y))
      (by simp only [ne_eq, List.replicate_eq_nil_iff]; omega)
      (by simp only [List.length_replicate]; exact le_refl _)]
    rfl
  · simp only [mkBatch, List.map_replicate, mkExample]
  · simp only [mkBatch, List.map_replicate, mkExample]

/-- Witness for C10's theorem at a concrete decode-mode input. -/
theorem decode_refill_spec_witness :
    refill hpsDecodeT vocabT true id ([ "a" ] :: [[ "b" ]]) ([ "c" ] :: [[ "d" ]])
      = (some [mkBatch hpsDecodeT vocabT (List.replicate hpsDecodeT.batch_size
          (mkExample hpsDecodeT vocabT [ "a" ] [ "c" ]))], [[ "b" ]], [[ "d" ]]) ∧
    (mkBatch hpsDecodeT vocabT (List.replicate hpsDecodeT.batch_size
        (mkExample hpsDecodeT vocabT [ "a" ] [ "c" ]))).original_articles
      = List.replicate hpsDecodeT.batch_size [ "a" ] ∧
    (mkBatch hpsDecodeT vocabT (List.replicate hpsDecodeT.batch_size
        (mkExample hpsDecodeT vocabT [ "a" ] [ "c" ]))).original_abstracts
      = List.replicate hpsDecodeT.batch_size [ "c" ] :=
  decode_refill_spec hpsDecodeT vocabT true id [ "a" ] [ "c" ] [[ "b" ]] [[ "d" ]]
    rfl (by decide)

/-- C4 (code_bug): the generator does not stop cleanly in decode mode.
Once input is exhausted, the decode branch of `refill` still builds a
`Batch` from an empty example list, and `max([])` raises `ValueError`,
which propagates out of `pair_iter`: on empty files the iterator errors
immediately, and on one-pair files it errors after the pair instead of
stopping.  -/
theorem pair_iter_decode_eof_raises :
    pair_iter_from hpsDecodeT vocabT true id (some [["a"]]) (some [["b"]])
      = Except.error () ∧
    pair_iter_from hpsDecodeT vocabT true id (some []) (some [])
      = Except.error () := by
  constructor <;> rfl

/-! ### C6 -/

theorem sortByEncLen_perm (l : List Example) : (sortByEncLen l).Perm l :=
  List.mergeSort_perm l _

theorem sortByEncLen_sorted (l : List Example) :
    (sortByEncLen l).Pairwise (fun a b => a.enc_len ≤ b.enc_len) := by
  have h := @List.sorted_mergeSort Example
    (fun a b : Example => decide (a.enc_len ≤ b.enc_len))
    (by intro a b c h1 h2; simp only [decide_eq_true_eq] at *; omega)
    (by intro a b; simp only [Bool.or_eq_true, decide_eq_true_eq]; omega)
    l
  exact h.imp (by intro a b hab; simpa using hab)

/-- C6 (confirmed): in a non-decode refill with `single_pass = false`, the
examples read from the files are sorted in non-decreasing `enc_len` order
(the sorted list is a permutation of them), sliced into consecutive
`batch_size` groups whose concatenation is the sorted list, turned into
Batches in order, and the returned batch list is the shuffle's permutation
of those; with `single_pass = true` neither sort nor shuffle is applied:
the result is exactly the in-order slices of the examples in file order
(whose concatenation is the file-order example list). -/
theorem refill_sort_shuffle_spec (hps : HPS) (v : Vocab)
    (shuffle : List Batch → List Batch) (xs ys : List Line)
    (hmode : hps.mode ≠ "decode") (hbs : 1 ≤ hps.batch_size)
    (hshuf : ∀ l, (shuffle l).Perm l) :
    (sortByEncLen (readExamples hps v xs ys)).Perm (readExamples hps v xs ys) ∧
    (sortByEncLen (readExamples hps v xs ys)).Pairwise
      (fun a b => a.enc_len ≤ b.enc_len) ∧
    (chunkList hps.batch_size (sortByEncLen (readExamples hps v xs ys))).flatten
      = sortByEncLen (readExamples hps v xs ys) ∧
    (∃ bs, (refill hps v false shuffle xs ys).1 = some bs ∧
      bs.Perm ((chunkList hps.batch_size (sortByEncLen (readExamples hps v xs ys))).map
        (mkBatch hps v))) ∧
    (refill hps v true shuffle xs ys).1
      = some ((chunkList hps.batch_size (readExamples hps v xs ys)).map (mkBatch hps v)) ∧
    (chunkList hps.batch_size (readExamples hps v xs ys)).flatten
      = readExamples hps v xs ys := by
  have hn : hps.batch_size ≠ 0 := by omega
  refine ⟨sortByEncLen_perm _, sortByEncLen_sorted _, chunkList_flatten _ hn _, ?_, ?_,
    chunkList_flatten _ hn _⟩
  · rw [refill_nondecode_eq hps v false shuffle _ _ hmode]
    unfold refill_nondecode
    dsimp only
    simp only [Bool.false_eq_true, if_false]
    rw [mapM_makeBatch_eq hps v _ (chunkList_mem_basic _ _)]
    exact ⟨_, rfl, hshuf _⟩
  · rw [refill_nondecode_eq hps v true shuffle _ _ hmode]
    unfold refill_nondecode
    dsimp only
    simp only [if_true]
    rw [mapM_makeBatch_eq hps v _ (chunkList_mem_basic _ _)]
    rfl

/-- Witness for C6's theorem at concrete empty files (the identity as the
sampled shuffle permutation). -/
theorem refill_sort_shuffle_spec_witness :
    (sortByEncLen (readExamples hpsTrainT vocabT [] [])).Perm
      (readExamples hpsTrainT vocabT [] []) ∧
    (sortByEncLen (readExamples hpsTrainT vocabT [] [])).Pairwise
      (fun a b => a.enc_len ≤ b.enc_len) ∧
    (chunkList hpsTrainT.batch_size (sortByEncLen (readExamples hpsTrainT vocabT [] []))).flatten
      = sortByEncLen (readExamples hpsTrainT vocabT [] []) ∧
    (∃ bs, (refill hpsTrainT vocabT false id [] []).1 = some bs ∧
      bs.Perm ((chunkList hpsTrainT.batch_size
        (sortByEncLen (readExamples hpsTrainT vocabT [] []))).map (mkBatch hpsTrainT vocabT))) ∧
    (refill hpsTrainT vocabT true id [] []).1
      = some ((chunkList hpsTrainT.batch_size (readExamples hpsTrainT vocabT [] [])).map
          (mkBatch hpsTrainT vocabT)) ∧
    (chunkList hpsTrainT.batch_size (readExamples hpsTrainT vocabT [] [])).flatten
      = readExamples hpsTrainT vocabT [] [] :=
  refill_sort_shuffle_spec hpsTrainT vocabT id [] [] (by decide) (by decide)
    (fun l => List.Perm.refl l)

end PG
